import Mathlib

/-!
Shallow embedding of `src/solver/linear_solver.py` from the
FactorioQualityOptimizer repository, together with theorems settling the
frozen claims about it.  Python floats are modelled as exact rationals,
Python strings as `List Char`, Python dicts as association lists, and
fallible code as `Except`.
-/

/-- The fixed jump probability `JUMP_QUALITY_PROBABILITY = 0.1`
(linear_solver.py line 18). -/
def JUMP_QUALITY_PROBABILITY : ℚ := 1/10

/-- Error outcomes of `calculate_quality_probability_factor`: the three
`ValueError` guards and the final catch-all `RuntimeError`. -/
inductive QualityFactorError where
  | startAboveMax : QualityFactorError
  | endAboveMax : QualityFactorError
  | endBelowStart : QualityFactorError
  | impossible : QualityFactorError
deriving DecidableEq

/-- Embedding of `calculate_quality_probability_factor`
(linear_solver.py lines 76-106): guards first, then the four return
branches, then the catch-all `RuntimeError`. -/
def calculate_quality_probability_factor (starting_quality ending_quality max_quality_unlocked : ℕ)
    (quality_percent : ℚ) : Except QualityFactorError ℚ :=
  if starting_quality > max_quality_unlocked then .error .startAboveMax
  else if ending_quality > max_quality_unlocked then .error .endAboveMax
  else if ending_quality < starting_quality then .error .endBelowStart
  else if ending_quality = starting_quality ∧ starting_quality = max_quality_unlocked then
    .ok 1
  else if ending_quality = starting_quality then
    .ok (1 - quality_percent)
  else if ending_quality > starting_quality ∧ ending_quality < max_quality_unlocked then
    .ok (quality_percent * (1 - JUMP_QUALITY_PROBABILITY) *
      JUMP_QUALITY_PROBABILITY ^ (ending_quality - starting_quality - 1))
  else if ending_quality > starting_quality ∧ ending_quality = max_quality_unlocked then
    .ok (quality_percent * JUMP_QUALITY_PROBABILITY ^ (ending_quality - starting_quality - 1))
  else .error .impossible

/-- The returned probability factor, read off the `Except` (0 on error);
used to state summation properties of the factors. -/
def qualityFactorValue (starting_quality ending_quality max_quality_unlocked : ℕ)
    (quality_percent : ℚ) : ℚ :=
  match calculate_quality_probability_factor starting_quality ending_quality
      max_quality_unlocked quality_percent with
  | .ok v => v
  | .error _ => 0

/-- Whether the outcome is one of the three `ValueError` domain errors
(as opposed to a normal return or the catch-all `RuntimeError`). -/
def isDomainError (r : Except QualityFactorError ℚ) : Prop :=
  r = .error .startAboveMax ∨ r = .error .endAboveMax ∨ r = .error .endBelowStart

lemma qfv_max (m : ℕ) (q : ℚ) : qualityFactorValue m m m q = 1 := by
  simp [qualityFactorValue, calculate_quality_probability_factor]

lemma qfv_same {s m : ℕ} (h : s < m) (q : ℚ) :
    qualityFactorValue s s m q = 1 - q := by
  simp only [qualityFactorValue, calculate_quality_probability_factor]
  rw [if_neg (by omega), if_neg (by omega), if_neg (by omega), if_neg (by omega)]
  simp

lemma qfv_mid {s e m : ℕ} (h1 : s < e) (h2 : e < m) (q : ℚ) :
    qualityFactorValue s e m q =
      q * (1 - JUMP_QUALITY_PROBABILITY) * JUMP_QUALITY_PROBABILITY ^ (e - s - 1) := by
  simp only [qualityFactorValue, calculate_quality_probability_factor]
  rw [if_neg (by omega), if_neg (by omega), if_neg (by omega), if_neg (by omega),
    if_neg (by omega), if_pos ⟨h1, h2⟩]

lemma qfv_top {s m : ℕ} (h : s < m) (q : ℚ) :
    qualityFactorValue s m m q = q * JUMP_QUALITY_PROBABILITY ^ (m - s - 1) := by
  simp only [qualityFactorValue, calculate_quality_probability_factor]
  rw [if_neg (by omega), if_neg (by omega), if_neg (by omega), if_neg (by omega),
    if_neg (by omega), if_neg (by omega)]
  simp [h]

/-- C1: on the valid domain `startTier ≤ endTier ≤ maxTierUnlocked` the function
returns exactly the four documented values (with jump probability `1/10`), and
it returns a domain error (`ValueError`) exactly when `startTier > max`,
`endTier > max`, or `endTier < startTier`. -/
theorem quality_probability_factor_spec (s e m : ℕ) (q : ℚ) :
    JUMP_QUALITY_PROBABILITY = 1/10 ∧
    (s = e → e = m → calculate_quality_probability_factor s e m q = .ok 1) ∧
    (s = e → e < m → calculate_quality_probability_factor s e m q = .ok (1 - q)) ∧
    (s < e → e < m → calculate_quality_probability_factor s e m q =
      .ok (q * (1 - JUMP_QUALITY_PROBABILITY) * JUMP_QUALITY_PROBABILITY ^ (e - s - 1))) ∧
    (s < e → e = m → calculate_quality_probability_factor s e m q =
      .ok (q * JUMP_QUALITY_PROBABILITY ^ (e - s - 1))) ∧
    (isDomainError (calculate_quality_probability_factor s e m q) ↔
      (s > m ∨ e > m ∨ e < s)) := by
  refine ⟨rfl, ?_, ?_, ?_, ?_, ?_⟩
  · rintro rfl rfl
    simp [calculate_quality_probability_factor]
  · rintro rfl h
    simp only [calculate_quality_probability_factor]
    rw [if_neg (by omega), if_neg (by omega), if_neg (by omega), if_neg (by omega)]
    simp
  · intro h1 h2
    simp only [calculate_quality_probability_factor]
    rw [if_neg (by omega), if_neg (by omega), if_neg (by omega), if_neg (by omega),
      if_neg (by omega), if_pos ⟨h1, h2⟩]
  · rintro h1 rfl
    simp only [calculate_quality_probability_factor]
    rw [if_neg (by omega), if_neg (by omega), if_neg (by omega), if_neg (by omega),
      if_neg (by omega), if_neg (by omega)]
    simp [h1]
  · constructor
    · intro hd
      by_contra hc
      push_neg at hc
      obtain ⟨hm1, hm2, hm3⟩ := hc
      simp only [calculate_quality_probability_factor] at hd
      rw [if_neg (by omega), if_neg (by omega), if_neg (by omega)] at hd
      rcases hd with hd | hd | hd <;> split_ifs at hd <;> simp_all
    · intro hc
      simp only [calculate_quality_probability_factor, isDomainError]
      by_cases h1 : s > m
      · rw [if_pos h1]; tauto
      · rw [if_neg h1]
        by_cases h2 : e > m
        · rw [if_pos h2]; tauto
        · rw [if_neg h2]
          rw [if_pos (by omega)]
          tauto

/-- Witness for `quality_probability_factor_spec` at `s = 1, e = 2, m = 4,
q = 1/2`: the mid branch fires with value `(1/2) * (9/10) * (1/10)^0`. -/
theorem quality_probability_factor_spec_witness :
    calculate_quality_probability_factor 1 2 4 (1/2) =
      .ok ((1/2) * (1 - JUMP_QUALITY_PROBABILITY) * JUMP_QUALITY_PROBABILITY ^ (2 - 1 - 1)) :=
  (quality_probability_factor_spec 1 2 4 (1/2)).2.2.2.1 (by decide) (by decide)

/-- C10: the catch-all `RuntimeError` branch is unreachable: for every input
the function never returns it, and whenever the documented precondition
`s ≤ e ≤ m` holds the function returns normally through one of the four
documented branches. -/
theorem quality_probability_factor_no_impossible (s e m : ℕ) (q : ℚ) :
    calculate_quality_probability_factor s e m q ≠ .error .impossible ∧
    (s ≤ e → e ≤ m → ∃ v, calculate_quality_probability_factor s e m q = .ok v) := by
  constructor
  · simp only [calculate_quality_probability_factor]
    split_ifs <;> simp_all <;> omega
  · intro h1 h2
    simp only [calculate_quality_probability_factor]
    split_ifs <;> first
      | exact ⟨_, rfl⟩
      | omega

/-- Witness for `quality_probability_factor_no_impossible` at
`s = 0, e = 2, m = 2, q = 1/4`: the function returns normally. -/
theorem quality_probability_factor_no_impossible_witness :
    ∃ v, calculate_quality_probability_factor 0 2 2 (1/4) = .ok v :=
  (quality_probability_factor_no_impossible 0 2 2 (1/4)).2 (by decide) (by decide)

/-- C2: for a fixed starting tier `s` and unlocked maximum `m` with `s ≤ m`,
the quality probability factors summed over all ending tiers `s ≤ e ≤ m`
equal exactly 1, for every quality percent. -/
theorem quality_probability_factor_sum (s m : ℕ) (q : ℚ) (h : s ≤ m) :
    ∑ e ∈ Finset.Icc s m, qualityFactorValue s e m q = 1 := by
  rcases eq_or_lt_of_le h with rfl | hlt
  · simp [qfv_max]
  · have hd : 1 ≤ m - s := by omega
    rw [← Nat.Ico_succ_right, Finset.sum_Ico_eq_sum_range]
    have hn : m + 1 - s = (m - s - 1) + 1 + 1 := by omega
    rw [hn, Finset.sum_range_succ, Finset.sum_range_succ']
    have h0 : qualityFactorValue s (s + 0) m q = 1 - q := by
      simpa using qfv_same hlt q
    have htop : qualityFactorValue s (s + (m - s - 1 + 1)) m q =
        q * JUMP_QUALITY_PROBABILITY ^ (m - s - 1) := by
      have hsm : s + (m - s - 1 + 1) = m := by omega
      rw [hsm, qfv_top hlt]
    have hmid : ∀ i ∈ Finset.range (m - s - 1),
        qualityFactorValue s (s + (i + 1)) m q =
          q * (1 - JUMP_QUALITY_PROBABILITY) * JUMP_QUALITY_PROBABILITY ^ i := by
      intro i hi
      rw [Finset.mem_range] at hi
      rw [qfv_mid (by omega) (by omega)]
      have he : s + (i + 1) - s - 1 = i := by omega
      rw [he]
    rw [h0, htop, Finset.sum_congr rfl hmid]
    have hgeom : ∑ i ∈ Finset.range (m - s - 1),
        q * (1 - JUMP_QUALITY_PROBABILITY) * JUMP_QUALITY_PROBABILITY ^ i =
          q * (1 - JUMP_QUALITY_PROBABILITY) *
            ((JUMP_QUALITY_PROBABILITY ^ (m - s - 1) - 1) / (JUMP_QUALITY_PROBABILITY - 1)) := by
      rw [← Finset.mul_sum, geom_sum_eq (by norm_num [JUMP_QUALITY_PROBABILITY])]
    rw [hgeom]
    simp only [JUMP_QUALITY_PROBABILITY]
    field_simp
    ring

/-- Witness for `quality_probability_factor_sum` at `s = 0, m = 2, q = 1/4`. -/
theorem quality_probability_factor_sum_witness :
    ∑ e ∈ Finset.Icc 0 2, qualityFactorValue 0 e 2 (1/4) = 1 :=
  quality_probability_factor_sum 0 2 (1/4) (by decide)

/-- One entry of a recipe's `results` list (linear_solver.py lines 64-74):
optional fields of the Python dict are `Option`s; `amount_min`/`amount_max`
are only consulted when `amount` is absent. -/
structure ResultData where
  amount : Option ℚ
  amount_min : ℚ
  amount_max : ℚ
  probability : Option ℚ
  ignored_by_productivity : Option ℚ
  extra_count_fraction : Option ℚ

/-- Embedding of `calculate_expected_amount` (linear_solver.py lines 64-74). -/
def calculate_expected_amount (result_data : ResultData) (prod_bonus : ℚ) : ℚ :=
  let base_amount : ℚ := match result_data.amount with
    | some a => a
    | none => (1/2) * (result_data.amount_min + result_data.amount_max)
  let probability_factor : ℚ := (result_data.probability).getD 1
  let ignored_by_productivity : ℚ := (result_data.ignored_by_productivity).getD 0
  let extra_count_fraction : ℚ := (result_data.extra_count_fraction).getD 0
  let base_amount_after_prod :=
    ignored_by_productivity + (base_amount - ignored_by_productivity) * (1 + prod_bonus)
  base_amount_after_prod * probability_factor * (1 + extra_count_fraction)

/-- C8: `calculate_expected_amount` equals the documented formula: base amount
is the fixed `amount` when present, else the midpoint of `amount_min` and
`amount_max`; the `ignored_by_productivity` portion of the base amount is
exempt from productivity scaling and the remainder is scaled by
`(1 + prod_bonus)`; the sum is multiplied by the occurrence probability
(default 1) and by `(1 + extra_count_fraction)` (default 0). -/
theorem expected_amount_spec (r : ResultData) (prod_bonus : ℚ) :
    (∀ a, r.amount = some a →
      calculate_expected_amount r prod_bonus =
        ((r.ignored_by_productivity).getD 0 +
            (a - (r.ignored_by_productivity).getD 0) * (1 + prod_bonus)) *
          (r.probability).getD 1 * (1 + (r.extra_count_fraction).getD 0)) ∧
    (r.amount = none →
      calculate_expected_amount r prod_bonus =
        ((r.ignored_by_productivity).getD 0 +
            ((r.amount_min + r.amount_max) / 2 - (r.ignored_by_productivity).getD 0) *
              (1 + prod_bonus)) *
          (r.probability).getD 1 * (1 + (r.extra_count_fraction).getD 0)) := by
  constructor
  · intro a ha
    simp only [calculate_expected_amount, ha]
  · intro ha
    simp only [calculate_expected_amount, ha]
    ring_nf

/-- Witness for `expected_amount_spec`: a result with fixed amount 4,
probability 1/2, 1 unit ignored by productivity, extra count fraction 0,
at productivity bonus 1, yields `(1 + 3 * 2) * (1/2) = 7/2`. -/
theorem expected_amount_spec_witness :
    calculate_expected_amount
        ⟨some 4, 0, 0, some (1/2), some 1, none⟩ 1 =
      ((1 : ℚ) + (4 - 1) * (1 + 1)) * (1/2) * (1 + 0) :=
  (expected_amount_spec ⟨some 4, 0, 0, some (1/2), some 1, none⟩ 1).1 4 rfl

/-- The module-count data of one enumerated recipe variant
(linear_solver.py lines 346-357). -/
structure VariantCounts where
  recipe_quality : ℕ
  num_qual_modules : ℕ
  num_prod_modules : ℕ
  num_beaconed_speed_modules : ℕ
deriving DecidableEq, Repr

/-- `POSSIBLE_NUM_BEACONED_SPEED_MODULES = list(range(17))`
(linear_solver.py line 51). -/
def POSSIBLE_NUM_BEACONED_SPEED_MODULES : List ℕ := List.range 17

/-- `self.possible_num_beaconed_speed_modules` (linear_solver.py lines
189-190): the full 0..16 candidate list when `check_speed_modules` is set,
else just `[0]`. -/
def possible_num_beaconed_speed_modules (check_speed_modules : Bool) : List ℕ :=
  if check_speed_modules then POSSIBLE_NUM_BEACONED_SPEED_MODULES else [0]

/-- The `itertools.product` enumeration of `setup_recipe_var`
(linear_solver.py lines 346-357) restricted to the module-count bookkeeping:
quality tiers × quality-module counts `0..module_slots` × beaconed-speed
module counts, with the productivity-module count derived as
`module_slots - num_qual_modules` when the recipe allows productivity,
else 0. -/
def enumerate_variant_counts (recipe_qualities : List ℕ) (allow_productivity : Bool)
    (crafting_machine_module_slots : ℕ) (possible_beaconed : List ℕ) : List VariantCounts :=
  recipe_qualities.flatMap fun recipe_quality =>
    (List.range (crafting_machine_module_slots + 1)).flatMap fun num_qual_modules =>
      possible_beaconed.map fun num_beaconed_speed_modules =>
        { recipe_quality := recipe_quality
          num_qual_modules := num_qual_modules
          num_prod_modules :=
            if allow_productivity then crafting_machine_module_slots - num_qual_modules
            else 0
          num_beaconed_speed_modules := num_beaconed_speed_modules }

/-- C7: every enumerated variant has productivity-module count equal to
`module_slots - num_qual_modules` when the recipe allows productivity and 0
otherwise; its quality- plus productivity-module count never exceeds the
machine's module slots; and its beaconed-speed-module count lies in the
candidate set 0..16 regardless of the slot count. -/
theorem variant_counts_invariant (recipe_qualities : List ℕ) (allow_productivity : Bool)
    (module_slots : ℕ) (check_speed_modules : Bool) (v : VariantCounts)
    (hv : v ∈ enumerate_variant_counts recipe_qualities allow_productivity module_slots
      (possible_num_beaconed_speed_modules check_speed_modules)) :
    (v.num_prod_modules =
      if allow_productivity then module_slots - v.num_qual_modules else 0) ∧
    v.num_qual_modules + v.num_prod_modules ≤ module_slots ∧
    v.num_beaconed_speed_modules ∈ POSSIBLE_NUM_BEACONED_SPEED_MODULES := by
  simp only [enumerate_variant_counts, List.mem_flatMap, List.mem_map, List.mem_range] at hv
  obtain ⟨rq, _, nq, hnq, nb, hnb, rfl⟩ := hv
  refine ⟨rfl, ?_, ?_⟩
  · by_cases hap : allow_productivity <;> simp [hap] <;> omega
  · simp only [possible_num_beaconed_speed_modules] at hnb
    by_cases hcs : check_speed_modules
    · simpa [hcs] using hnb
    · simp [hcs] at hnb
      simp [hnb, POSSIBLE_NUM_BEACONED_SPEED_MODULES]

/-- Witness for `variant_counts_invariant`: with one quality tier,
productivity allowed, 4 module slots and speed-module checking on, the
variant with 1 quality module, 3 productivity modules and 16 beaconed speed
modules is enumerated and satisfies the invariant. -/
theorem variant_counts_invariant_witness :
    (⟨0, 1, 3, 16⟩ : VariantCounts).num_prod_modules =
        (if true then 4 - (⟨0, 1, 3, 16⟩ : VariantCounts).num_qual_modules else 0) ∧
      (⟨0, 1, 3, 16⟩ : VariantCounts).num_qual_modules +
          (⟨0, 1, 3, 16⟩ : VariantCounts).num_prod_modules ≤ 4 ∧
      (⟨0, 1, 3, 16⟩ : VariantCounts).num_beaconed_speed_modules ∈
        POSSIBLE_NUM_BEACONED_SPEED_MODULES :=
  variant_counts_invariant [0] true 4 true ⟨0, 1, 3, 16⟩ (by decide)

/-- C9: when speed-module checking is disabled (beacon candidate list `[0]`)
and the machine has zero module slots, the enumeration produces exactly one
variant per eligible quality tier, with all three module counts 0; this holds
regardless of the productivity-research configuration, which only shifts the
productivity bonus and never the variant count. -/
theorem variant_counts_zero_modules (recipe_qualities : List ℕ)
    (allow_productivity : Bool) :
    enumerate_variant_counts recipe_qualities allow_productivity 0
        (possible_num_beaconed_speed_modules false) =
      recipe_qualities.map fun rq => ⟨rq, 0, 0, 0⟩ := by
  simp only [enumerate_variant_counts, possible_num_beaconed_speed_modules,
    if_neg Bool.false_ne_true, List.range_succ]
  induction recipe_qualities with
  | nil => rfl
  | cons head tail ih => simp_all

/-- The fields of a crafting machine consulted by
`get_best_crafting_machine` (linear_solver.py lines 419-439). -/
structure CraftingMachineData where
  key : List Char
  module_slots : ℕ
  crafting_speed : ℚ
  prod_bonus : ℚ
  crafting_categories : List (List Char)
deriving DecidableEq

/-- The machines considered by `get_best_crafting_machine`
(linear_solver.py lines 421-424): those passing the allow/disallow filter
whose crafting categories contain the recipe's category. -/
def category_machines (allowed : List Char → Bool) (machines : List CraftingMachineData)
    (recipe_category : List Char) : List CraftingMachineData :=
  machines.filter fun c => allowed c.key && c.crafting_categories.contains recipe_category

/-- The `best_crafting_machine` filter of `get_best_crafting_machine`
(linear_solver.py lines 430-436): machines simultaneously attaining the
maximum module slots, maximum intrinsic productivity bonus and maximum
crafting speed among the considered machines. -/
def best_machine_candidates (allowed : List Char → Bool) (machines : List CraftingMachineData)
    (recipe_category : List Char) : List CraftingMachineData :=
  let allowed_crafting_machines := category_machines allowed machines recipe_category
  let max_module_slots := ((allowed_crafting_machines.map (·.module_slots)).max?).getD 0
  let max_prod_bonus := ((allowed_crafting_machines.map (·.prod_bonus)).max?).getD 0
  let max_crafting_speed := ((allowed_crafting_machines.map (·.crafting_speed)).max?).getD 0
  allowed_crafting_machines.filter fun c =>
    decide (c.module_slots = max_module_slots) && decide (c.prod_bonus = max_prod_bonus) &&
      decide (c.crafting_speed = max_crafting_speed)

/-- Embedding of `LinearSolver.get_best_crafting_machine`
(linear_solver.py lines 419-439): `ok none` when no machine matches the
category (recipe skipped), the unique simultaneous maximizer when there is
exactly one, and the `RuntimeError` otherwise. -/
def get_best_crafting_machine (allowed : List Char → Bool)
    (machines : List CraftingMachineData) (recipe_category : List Char) :
    Except Unit (Option CraftingMachineData) :=
  if category_machines allowed machines recipe_category = [] then .ok none
  else
    match best_machine_candidates allowed machines recipe_category with
    | [m] => .ok (some m)
    | _ => .error ()

/-- C4 counterexample: two machines both matching the category, one with more
module slots, the other with more crafting speed (equal productivity
bonuses).  No machine attains all three maxima simultaneously — so no two
machines tie on all three — yet the code raises the disambiguation error,
refuting the claim that the error fires if and only if more than one machine
ties on all three. -/
theorem get_best_crafting_machine_error_without_tie :
    get_best_crafting_machine (fun _ => true)
        [⟨['a'], 2, 1, 0, [['c']]⟩, ⟨['b'], 1, 2, 0, [['c']]⟩] ['c'] = .error () ∧
      (best_machine_candidates (fun _ => true)
        [⟨['a'], 2, 1, 0, [['c']]⟩, ⟨['b'], 1, 2, 0, [['c']]⟩] ['c']).length = 0 :=
  ⟨rfl, rfl⟩

/-- C4 (amended): `get_best_crafting_machine` considers exactly the allowed
machines whose crafting categories contain the recipe's category; it returns
`none` (recipe skipped, no error) iff no machine matches; it returns machine
`m` iff `m` is the unique considered machine simultaneously attaining the
maximum module slots, maximum productivity bonus and maximum crafting speed;
and it raises the disambiguation error iff some machine matches but the
number of machines attaining all three maxima simultaneously differs
from one. -/
theorem get_best_crafting_machine_spec (allowed : List Char → Bool)
    (machines : List CraftingMachineData) (recipe_category : List Char) :
    (∀ c, c ∈ category_machines allowed machines recipe_category ↔
      c ∈ machines ∧ allowed c.key = true ∧ recipe_category ∈ c.crafting_categories) ∧
    (get_best_crafting_machine allowed machines recipe_category = .ok none ↔
      category_machines allowed machines recipe_category = []) ∧
    (∀ m, get_best_crafting_machine allowed machines recipe_category = .ok (some m) ↔
      category_machines allowed machines recipe_category ≠ [] ∧
        best_machine_candidates allowed machines recipe_category = [m]) ∧
    (get_best_crafting_machine allowed machines recipe_category = .error () ↔
      category_machines allowed machines recipe_category ≠ [] ∧
        (best_machine_candidates allowed machines recipe_category).length ≠ 1) := by
  refine ⟨?_, ?_, ?_, ?_⟩
  · intro c
    simp [category_machines, List.mem_filter, List.contains_iff_exists_mem_beq, and_assoc]
  · by_cases hacm : category_machines allowed machines recipe_category = []
    · simp [get_best_crafting_machine, hacm]
    · simp only [get_best_crafting_machine, if_neg hacm]
      rcases hbl : best_machine_candidates allowed machines recipe_category with
        _ | ⟨m1, _ | ⟨m2, rest⟩⟩ <;> simp [hacm]
  · intro m
    by_cases hacm : category_machines allowed machines recipe_category = []
    · simp [get_best_crafting_machine, hacm]
    · simp only [get_best_crafting_machine, if_neg hacm]
      rcases hbl : best_machine_candidates allowed machines recipe_category with
        _ | ⟨m1, _ | ⟨m2, rest⟩⟩ <;> simp [hacm]
  · by_cases hacm : category_machines allowed machines recipe_category = []
    · simp [get_best_crafting_machine, hacm]
    · simp only [get_best_crafting_machine, if_neg hacm]
      rcases hbl : best_machine_candidates allowed machines recipe_category with
        _ | ⟨m1, _ | ⟨m2, rest⟩⟩ <;> simp [hacm]

/-- Prepend a character to the first group of a split result (helper for
the embedding of Python's `str.split`). -/
def consHead (c : Char) : List (List Char) → List (List Char)
  | [] => [[c]]
  | g :: gs => (c :: g) :: gs

/-- Embedding of Python's `s.split('__')`: scan left to right, cutting at
each leftmost non-overlapping occurrence of `"__"`. -/
def splitUU : List Char → List (List Char)
  | [] => [[]]
  | [c] => [[c]]
  | c1 :: c2 :: rest =>
    if c1 = '_' ∧ c2 = '_' then [] :: splitUU rest
    else consHead c1 (splitUU (c2 :: rest))

/-- Whether `"__"` occurs as a substring. -/
def hasUU : List Char → Bool
  | c1 :: c2 :: rest => (decide (c1 = '_') && decide (c2 = '_')) || hasUU (c2 :: rest)
  | _ => false

/-- Embedding of Python's `s.split('-')[0]`: the prefix before the first
`'-'` (the whole string when `'-'` does not occur). -/
def takeUntilDash : List Char → List Char
  | [] => []
  | c :: rest => if c = '-' then [] else c :: takeUntilDash rest

/-- Embedding of Python's `s.split('--')[0]`: the prefix before the first
occurrence of `"--"`. -/
def takeUntilDashDash : List Char → List Char
  | [] => []
  | [c] => [c]
  | c1 :: c2 :: rest =>
    if c1 = '-' ∧ c2 = '-' then [] else c1 :: takeUntilDashDash (c2 :: rest)

lemma splitUU_ne_nil (s : List Char) : splitUU s ≠ [] := by
  induction s with
  | nil => simp [splitUU]
  | cons c t ih =>
    cases t with
    | nil => simp [splitUU]
    | cons c2 r =>
      simp only [splitUU]
      split_ifs
      · simp
      · rcases h : splitUU (c2 :: r) with _ | ⟨g, gs⟩
        · exact absurd h ih
        · simp [consHead]

lemma splitUU_append (a t : List Char) (h : hasUU (a ++ ['_']) = false) :
    splitUU (a ++ '_' :: '_' :: t) = a :: splitUU t := by
  induction a with
  | nil =>
    show splitUU ('_' :: '_' :: t) = [] :: splitUU t
    simp [splitUU]
  | cons c a' ih =>
    cases a' with
    | nil =>
      have hc : c ≠ '_' := by
        simpa [hasUU] using h
      show splitUU (c :: '_' :: '_' :: t) = [c] :: splitUU t
      simp only [splitUU]
      rw [if_neg (by simp [hc])]
      simp [consHead]
    | cons d a'' =>
      have hcd : ¬(c = '_' ∧ d = '_') := by
        intro ⟨h1, h2⟩
        simp [hasUU, h1, h2] at h
      have h' : hasUU ((d :: a'') ++ ['_']) = false := by
        simp only [List.cons_append, hasUU, Bool.or_eq_false_iff] at h
        exact h.2
      show splitUU (c :: d :: (a'' ++ '_' :: '_' :: t)) = (c :: d :: a'') :: splitUU t
      simp only [splitUU]
      rw [if_neg hcd]
      have harr : d :: (a'' ++ '_' :: '_' :: t) = (d :: a'') ++ '_' :: '_' :: t := rfl
      rw [harr, ih h']
      rfl

lemma splitUU_no_sep (s : List Char) (h : hasUU s = false) : splitUU s = [s] := by
  induction s with
  | nil => simp [splitUU]
  | cons c t ih =>
    cases t with
    | nil => simp [splitUU]
    | cons c2 r =>
      simp only [hasUU, Bool.or_eq_false_iff] at h
      simp only [splitUU]
      rw [if_neg (by simpa using h.1), ih h.2]
      rfl

lemma hasUU_false_of_no_underscore (s : List Char) (hs : ∀ c ∈ s, c ≠ '_') :
    hasUU s = false := by
  induction s with
  | nil => rfl
  | cons c t ih =>
    cases t with
    | nil => rfl
    | cons c2 r =>
      simp only [hasUU, Bool.or_eq_false_iff]
      refine ⟨by simp [hs c (by simp)], ih fun c hc => hs c (by simp [hc])⟩

lemma hasUU_append_underscore_of_no_underscore (s : List Char)
    (hs : ∀ c ∈ s, c ≠ '_') : hasUU (s ++ ['_']) = false := by
  induction s with
  | nil => rfl
  | cons c t ih =>
    cases t with
    | nil =>
      show hasUU [c, '_'] = false
      simp [hasUU, hs c (by simp)]
    | cons c2 r =>
      show hasUU (c :: c2 :: (r ++ ['_'])) = false
      simp only [hasUU, Bool.or_eq_false_iff]
      refine ⟨by simp [hs c (by simp)], ?_⟩
      exact ih fun c hc => hs c (by simp [hc])

lemma hasUU_append_underscore (s : List Char) (h1 : hasUU s = false)
    (h2 : s.getLast? ≠ some '_') : hasUU (s ++ ['_']) = false := by
  induction s with
  | nil => rfl
  | cons c t ih =>
    cases t with
    | nil =>
      have hc : c ≠ '_' := by simpa using h2
      show hasUU [c, '_'] = false
      simp [hasUU, hc]
    | cons c2 r =>
      simp only [hasUU, Bool.or_eq_false_iff] at h1
      rw [List.getLast?_cons_cons] at h2
      show hasUU (c :: c2 :: (r ++ ['_'])) = false
      simp only [hasUU, Bool.or_eq_false_iff]
      exact ⟨by simpa using h1.1, ih h1.2 h2⟩

lemma takeUntilDash_append (a t : List Char) (ha : ∀ c ∈ a, c ≠ '-') :
    takeUntilDash (a ++ '-' :: t) = a := by
  induction a with
  | nil => simp [takeUntilDash]
  | cons c a' ih =>
    show takeUntilDash (c :: (a' ++ '-' :: t)) = c :: a'
    simp only [takeUntilDash]
    rw [if_neg (ha c (by simp))]
    rw [ih fun c hc => ha c (by simp [hc])]

/-- The decimal digit character for a digit `d < 10`. -/
def digitChar (d : ℕ) : Char := Char.ofNat (48 + d)

/-- Embedding of Python's decimal formatting of a non-negative integer
(as used by the f-string in `get_recipe_id`). -/
def natRepr (n : ℕ) : List Char :=
  if n = 0 then ['0'] else (Nat.digits 10 n).reverse.map digitChar

/-- The digit value of a decimal digit character. -/
def charToDigit (c : Char) : ℕ := c.toNat - 48

/-- Embedding of Python's `int(...)` on a decimal digit string. -/
def parseNat (s : List Char) : ℕ :=
  s.foldl (fun acc c => 10 * acc + charToDigit c) 0

lemma charToDigit_digitChar {d : ℕ} (h : d < 10) : charToDigit (digitChar d) = d := by
  interval_cases d <;> rfl

lemma digitChar_ne_underscore {d : ℕ} (h : d < 10) : digitChar d ≠ '_' := by
  interval_cases d <;> decide

lemma digitChar_ne_dash {d : ℕ} (h : d < 10) : digitChar d ≠ '-' := by
  interval_cases d <;> decide

lemma natRepr_no_underscore (n : ℕ) : ∀ c ∈ natRepr n, c ≠ '_' := by
  intro c hc
  by_cases h0 : n = 0
  · simp [natRepr, h0] at hc
    subst hc
    decide
  · simp only [natRepr, if_neg h0, List.mem_map, List.mem_reverse] at hc
    obtain ⟨d, hd, rfl⟩ := hc
    exact digitChar_ne_underscore (Nat.digits_lt_base (by norm_num) hd)

lemma natRepr_no_dash (n : ℕ) : ∀ c ∈ natRepr n, c ≠ '-' := by
  intro c hc
  by_cases h0 : n = 0
  · simp [natRepr, h0] at hc
    subst hc
    decide
  · simp only [natRepr, if_neg h0, List.mem_map, List.mem_reverse] at hc
    obtain ⟨d, hd, rfl⟩ := hc
    exact digitChar_ne_dash (Nat.digits_lt_base (by norm_num) hd)

lemma foldl_decimal (l : List ℕ) (acc : ℕ) :
    List.foldl (fun a d => 10 * a + d) acc l.reverse =
      acc * 10 ^ l.length + Nat.ofDigits 10 l := by
  induction l generalizing acc with
  | nil => simp
  | cons d l' ih =>
    simp only [List.reverse_cons, List.foldl_append, List.foldl_cons, List.foldl_nil, ih,
      Nat.ofDigits_cons, List.length_cons, pow_succ]
    ring

theorem parseNat_natRepr (n : ℕ) : parseNat (natRepr n) = n := by
  by_cases h0 : n = 0
  · subst h0
    rfl
  · simp only [natRepr, if_neg h0, parseNat, List.foldl_map]
    rw [List.foldl_ext (fun (a : ℕ) (d : ℕ) => 10 * a + charToDigit (digitChar d))
      (fun (a : ℕ) (d : ℕ) => 10 * a + d) 0 ?_]
    · rw [foldl_decimal, Nat.ofDigits_digits]
      simp
    · intro a d hd
      rw [List.mem_reverse] at hd
      simp [charToDigit_digitChar (Nat.digits_lt_base (by norm_num) hd)]

/-- `QUALITY_NAMES = ['normal', 'uncommon', 'rare', 'epic', 'legendary']`
(linear_solver.py line 19). -/
def QUALITY_NAMES : List (List Char) :=
  [['n', 'o', 'r', 'm', 'a', 'l'],
   ['u', 'n', 'c', 'o', 'm', 'm', 'o', 'n'],
   ['r', 'a', 'r', 'e'],
   ['e', 'p', 'i', 'c'],
   ['l', 'e', 'g', 'e', 'n', 'd', 'a', 'r', 'y']]

/-- `QUALITY_LEVELS` (linear_solver.py line 20): the level of a quality
name, i.e. its index in `QUALITY_NAMES`. -/
def QUALITY_LEVELS (quality_name : List Char) : Option ℕ :=
  QUALITY_NAMES.findIdx? (fun n => n == quality_name)

/-- The literal chunk `"-qual"` of the recipe-id format string. -/
def qualSuffix : List Char := ['-', 'q', 'u', 'a', 'l']

/-- The literal chunk `"-prod"` of the recipe-id format string. -/
def prodSuffix : List Char := ['-', 'p', 'r', 'o', 'd']

/-- The literal chunk `"-beaconed-speed"` of the recipe-id format string. -/
def beaconedSpeedSuffix : List Char :=
  ['-', 'b', 'e', 'a', 'c', 'o', 'n', 'e', 'd', '-', 's', 'p', 'e', 'e', 'd']

/-- Embedding of `get_recipe_id` (linear_solver.py lines 108-109): the
f-string
`'{QUALITY_NAMES[quality]}__{recipe_key}__{crafting_machine_key}__{nq}-qual__{np}-prod__{nb}-beaconed-speed'`. -/
def get_recipe_id (recipe_key : List Char) (quality : ℕ) (crafting_machine_key : List Char)
    (num_qual_modules num_prod_modules num_beaconed_speed_modules : ℕ) : List Char :=
  QUALITY_NAMES.getD quality [] ++ '_' :: '_' ::
    (recipe_key ++ '_' :: '_' ::
      (crafting_machine_key ++ '_' :: '_' ::
        (natRepr num_qual_modules ++ qualSuffix ++ '_' :: '_' ::
          (natRepr num_prod_modules ++ prodSuffix ++ '_' :: '_' ::
            (natRepr num_beaconed_speed_modules ++ beaconedSpeedSuffix)))))

/-- The fields produced by `parse_recipe_id` (linear_solver.py lines
111-120). -/
structure RecipeIdInfo where
  recipe_quality : List Char
  recipe_key : List Char
  machine : List Char
  num_qual_modules : ℕ
  num_prod_modules : ℕ
  num_beaconed_speed_modules : ℕ
deriving DecidableEq, Repr

/-- Embedding of `parse_recipe_id` (linear_solver.py lines 111-120): split
the id on `'__'` and read the six fields back, parsing each module count
from the prefix of its chunk before the first `'-'`. -/
def parse_recipe_id (recipe_id : List Char) : RecipeIdInfo :=
  let objs := splitUU recipe_id
  { recipe_quality := objs.getD 0 []
    recipe_key := objs.getD 1 []
    machine := objs.getD 2 []
    num_qual_modules := parseNat (takeUntilDash (objs.getD 3 []))
    num_prod_modules := parseNat (takeUntilDash (objs.getD 4 []))
    num_beaconed_speed_modules := parseNat (takeUntilDash (objs.getD 5 [])) }

lemma no_underscore_natRepr_qualSuffix (n : ℕ) :
    ∀ c ∈ natRepr n ++ qualSuffix, c ≠ '_' := by
  intro c hc
  rcases List.mem_append.1 hc with h | h
  · exact natRepr_no_underscore n c h
  · fin_cases h <;> decide

lemma no_underscore_natRepr_prodSuffix (n : ℕ) :
    ∀ c ∈ natRepr n ++ prodSuffix, c ≠ '_' := by
  intro c hc
  rcases List.mem_append.1 hc with h | h
  · exact natRepr_no_underscore n c h
  · fin_cases h <;> decide

lemma no_underscore_natRepr_beaconedSpeedSuffix (n : ℕ) :
    ∀ c ∈ natRepr n ++ beaconedSpeedSuffix, c ≠ '_' := by
  intro c hc
  rcases List.mem_append.1 hc with h | h
  · exact natRepr_no_underscore n c h
  · fin_cases h <;> decide

/-- C6 (amended): the recipe-id round trip is lossless provided the recipe
and machine keys contain no `'__'` and do not end with `'_'`: for every
quality tier index below the number of quality names and all module counts,
`parse_recipe_id` applied to `get_recipe_id` recovers the quality name of
the encoded tier (whose quality level is the original tier), the recipe
key, the machine key, and the three module counts. -/
theorem recipe_id_round_trip (recipe_key crafting_machine_key : List Char)
    (quality num_qual_modules num_prod_modules num_beaconed_speed_modules : ℕ)
    (hq : quality < 5)
    (hr1 : hasUU recipe_key = false) (hr2 : recipe_key.getLast? ≠ some '_')
    (hm1 : hasUU crafting_machine_key = false)
    (hm2 : crafting_machine_key.getLast? ≠ some '_') :
    parse_recipe_id (get_recipe_id recipe_key quality crafting_machine_key
        num_qual_modules num_prod_modules num_beaconed_speed_modules) =
      { recipe_quality := QUALITY_NAMES.getD quality []
        recipe_key := recipe_key
        machine := crafting_machine_key
        num_qual_modules := num_qual_modules
        num_prod_modules := num_prod_modules
        num_beaconed_speed_modules := num_beaconed_speed_modules } ∧
    QUALITY_LEVELS (QUALITY_NAMES.getD quality []) = some quality := by
  have ok0 : hasUU (QUALITY_NAMES.getD quality [] ++ ['_']) = false := by
    interval_cases quality <;> decide
  have ok1 : hasUU (recipe_key ++ ['_']) = false := hasUU_append_underscore _ hr1 hr2
  have ok2 : hasUU (crafting_machine_key ++ ['_']) = false :=
    hasUU_append_underscore _ hm1 hm2
  have ok3 : hasUU ((natRepr num_qual_modules ++ qualSuffix) ++ ['_']) = false :=
    hasUU_append_underscore_of_no_underscore _ (no_underscore_natRepr_qualSuffix _)
  have ok4 : hasUU ((natRepr num_prod_modules ++ prodSuffix) ++ ['_']) = false :=
    hasUU_append_underscore_of_no_underscore _ (no_underscore_natRepr_prodSuffix _)
  have ok5 : hasUU (natRepr num_beaconed_speed_modules ++ beaconedSpeedSuffix) = false :=
    hasUU_false_of_no_underscore _ (no_underscore_natRepr_beaconedSpeedSuffix _)
  have hsplit : splitUU (get_recipe_id recipe_key quality crafting_machine_key
      num_qual_modules num_prod_modules num_beaconed_speed_modules) =
      [QUALITY_NAMES.getD quality [], recipe_key, crafting_machine_key,
        natRepr num_qual_modules ++ qualSuffix,
        natRepr num_prod_modules ++ prodSuffix,
        natRepr num_beaconed_speed_modules ++ beaconedSpeedSuffix] := by
    unfold get_recipe_id
    rw [splitUU_append _ _ ok0, splitUU_append _ _ ok1, splitUU_append _ _ ok2,
      splitUU_append _ _ ok3, splitUU_append _ _ ok4, splitUU_no_sep _ ok5]
  constructor
  · simp only [parse_recipe_id, hsplit]
    have hq3 : takeUntilDash (natRepr num_qual_modules ++ qualSuffix) =
        natRepr num_qual_modules :=
      takeUntilDash_append _ _ (natRepr_no_dash _)
    have hq4 : takeUntilDash (natRepr num_prod_modules ++ prodSuffix) =
        natRepr num_prod_modules :=
      takeUntilDash_append _ _ (natRepr_no_dash _)
    have hq5 : takeUntilDash (natRepr num_beaconed_speed_modules ++ beaconedSpeedSuffix) =
        natRepr num_beaconed_speed_modules :=
      takeUntilDash_append _ _ (natRepr_no_dash _)
    simp [List.getD, hq3, hq4, hq5, parseNat_natRepr]
  · interval_cases quality <;> decide

/-- Witness for `recipe_id_round_trip` at quality tier 2, recipe key
`"iron"`, machine key `"mk"`, module counts 10, 3 and 16 (exercising a
two-digit count). -/
theorem recipe_id_round_trip_witness :
    parse_recipe_id (get_recipe_id ['i', 'r', 'o', 'n'] 2 ['m', 'k'] 10 3 16) =
      { recipe_quality := QUALITY_NAMES.getD 2 []
        recipe_key := ['i', 'r', 'o', 'n']
        machine := ['m', 'k']
        num_qual_modules := 10
        num_prod_modules := 3
        num_beaconed_speed_modules := 16 } ∧
    QUALITY_LEVELS (QUALITY_NAMES.getD 2 []) = some 2 :=
  recipe_id_round_trip ['i', 'r', 'o', 'n'] ['m', 'k'] 2 10 3 16
    (by decide) (by decide) (by decide) (by decide) (by decide)

/-- C6 counterexample: the recipe key `"a_"` contains no `'__'` delimiter,
yet the round trip is lossy: encoding at quality 0 with machine key `"m"`
and zero module counts and decoding yields recipe key `"a"` and machine
key `"_m"`, because the trailing `'_'` of the key merges with the
`'__'` delimiter. -/
theorem recipe_id_round_trip_counterexample :
    hasUU ['a', '_'] = false ∧
    (parse_recipe_id (get_recipe_id ['a', '_'] 0 ['m'] 0 0 0)).recipe_key ≠ ['a', '_'] ∧
    (parse_recipe_id (get_recipe_id ['a', '_'] 0 ['m'] 0 0 0)).machine ≠ ['m'] := by
  refine ⟨rfl, ?_, ?_⟩ <;> decide

/-- Embedding of Python's `del recipes[recipe_key]` on a dict modelled as an
association list: removing an absent key raises `KeyError`. -/
def dict_del (recipes : List (List Char × List (List Char))) (recipe_key : List Char) :
    Except Unit (List (List Char × List (List Char))) :=
  if (recipes.lookup recipe_key).isSome then
    .ok (recipes.filter fun kv => !(kv.1 == recipe_key))
  else .error ()

/-- One iteration of the normalization loop of `LinearSolver.__init__`
(linear_solver.py lines 229-241) for a single recipe key: fetch the recipe,
then walk its ingredient names in order, deleting the recipe from the
catalog whenever an ingredient's item is absent and otherwise accumulating
the `recipe_allows_quality` flag.  Items are modelled as an association
list from item key to the item's `allows_quality` flag. -/
def process_recipe (items : List (List Char × Bool))
    (recipes : List (List Char × List (List Char))) (recipe_key : List Char) :
    Except Unit (List (List Char × List (List Char)) × Bool) :=
  match recipes.lookup recipe_key with
  | none => .error ()
  | some ingredients =>
    ingredients.foldlM
      (fun (st : List (List Char × List (List Char)) × Bool) ingredient_name =>
        match items.lookup ingredient_name with
        | none => (dict_del st.1 recipe_key).map fun d => (d, st.2)
        | some allows_quality => .ok (st.1, st.2 || allows_quality))
      (recipes, false)

/-- The whole normalization pass of `LinearSolver.__init__` (linear_solver.py
lines 227-241): iterate the snapshot of the recipe keys, processing each
recipe's ingredients against the current catalog.  (The derived
`allows_quality`/`qualities` fields written back onto each recipe object do
not affect catalog membership and are not retained in the catalog model.) -/
def normalize_recipes (items : List (List Char × Bool))
    (recipes : List (List Char × List (List Char))) :
    Except Unit (List (List Char × List (List Char))) :=
  (recipes.map (·.1)).foldlM
    (fun acc recipe_key => (process_recipe items acc recipe_key).map (·.1)) recipes

/-- C5: evaluation of the normalization loop.  A recipe whose single
ingredient names a non-existent item is silently dropped, and a recipe with
one missing ingredient among several recipes is dropped while the others
are kept — but a recipe with TWO ingredients naming non-existent items makes
the loop execute `del self.recipes[recipe_key]` twice, and the second
delete raises `KeyError`, contradicting the never-raises claim. -/
theorem normalize_recipes_double_missing :
    normalize_recipes [(['a'], true)] [(['r'], [['x'], ['y']])] = .error () ∧
    normalize_recipes [(['a'], true)] [(['r'], [['x']])] = .ok [] ∧
    normalize_recipes [(['a'], true)] [(['r'], [['a']]), (['s'], [['x'], ['a']])] =
      .ok [(['r'], [['a']])] :=
  ⟨rfl, rfl, rfl⟩

/-- The literal suffix `"--resource"` of synthetic resource item keys. -/
def resourceSuffix : List Char := ['-', '-', 'r', 'e', 's', 'o', 'u', 'r', 'c', 'e']

/-- The literal suffix `"--mining"` of synthetic mining recipe keys. -/
def miningSuffix : List Char := ['-', '-', 'm', 'i', 'n', 'i', 'n', 'g']

/-- Python dict assignment `d[k] = v` on an association list: overwrite the
existing binding if present, else append. -/
def assoc_set {α : Type} [BEq α] (d : List (α × ℚ)) (k : α) (v : ℚ) : List (α × ℚ) :=
  if d.any fun kv => kv.1 == k then
    d.map fun kv => if kv.1 == k then (kv.1, v) else kv
  else d ++ [(k, v)]

/-- The breakdown accumulated for one solved mining recipe variant
(linear_solver.py lines 583-607). -/
structure MiningBreakdown where
  resource_consumption : Option ℚ
  ingredients : List (List Char × ℚ)
  products : List ((List Char × List Char) × ℚ)
deriving DecidableEq

/-- Embedding of the per-variant breakdown loop of `LinearSolver.run`
(linear_solver.py lines 583-607) for a mining-derived recipe variant:
scan every ItemNode (`solver_items` entry, an item id with its list of
(variable, per-building amount) contributions), keep the terms whose
variable matches this variant, and multiply by the solved building count.
`stale_output_amount` models the Python local `amount`, which at this point
in `run` still holds the LAST output's `amount` from the outputs loop of
lines 487-496 — the value the code actually uses on line 601
(`resource_consumption = (-1) * amount`).  The `else` branch for
non-mining recipe keys records into the crafting entry instead and is
outside this mining-specific slice. -/
def extract_mining_breakdown (solver_items : List (List Char × List (Option ℕ × ℚ)))
    (recipe_var : ℕ) (num_buildings : ℚ) (raw_recipe_key factorio_recipe_key : List Char)
    (stale_output_amount : ℚ) : MiningBreakdown :=
  solver_items.foldl
    (fun st item_entry =>
      let item_quality := (splitUU item_entry.1).getD 0 []
      let item_key := (splitUU item_entry.1).getD 1 []
      let factorio_item_key :=
        if resourceSuffix.isSuffixOf item_key then takeUntilDashDash item_key else item_key
      item_entry.2.foldl
        (fun st2 solver_var_info =>
          if solver_var_info.1 = some recipe_var then
            let amount_per_recipe := solver_var_info.2
            let total_amount := amount_per_recipe * num_buildings
            if total_amount < 0 then
              if miningSuffix.isSuffixOf raw_recipe_key then
                if factorio_item_key = factorio_recipe_key then
                  { st2 with resource_consumption := some ((-1) * stale_output_amount) }
                else
                  { st2 with ingredients :=
                      assoc_set st2.ingredients factorio_item_key ((-1) * total_amount) }
              else st2
            else if total_amount > 0 then
              { st2 with products :=
                  assoc_set st2.products (item_key, item_quality) total_amount }
            else st2
          else st2)
        st)
    ⟨none, [], []⟩

/-- C3: evaluation of the mining breakdown at a concrete solved variant.
The synthetic resource item `normal__o--resource` is consumed at 2 per
building and the variant runs 3 buildings, so the claimed
`resource_consumption` is `(-1) * (-2 * 3) = 6`; but the code stores
`(-1) * amount` with `amount` the stale last-output amount (here 5),
yielding `-5` — refuting the claim (the products field, by contrast, is
the contribution times the building count as claimed). -/
theorem mining_resource_consumption_bug :
    (extract_mining_breakdown
        [(['n', 'o', 'r', 'm', 'a', 'l', '_', '_', 'o',
            '-', '-', 'r', 'e', 's', 'o', 'u', 'r', 'c', 'e'], [(some 0, -2)]),
         (['n', 'o', 'r', 'm', 'a', 'l', '_', '_', 'o'], [(some 0, 3/2)])]
        0 3 ['o', '-', '-', 'm', 'i', 'n', 'i', 'n', 'g'] ['o'] 5) =
      { resource_consumption := some (-5)
        ingredients := []
        products := [((['o'], ['n', 'o', 'r', 'm', 'a', 'l']), 9/2)] } ∧
    some ((-5 : ℚ)) ≠ some ((-1) * (-2 * 3) : ℚ) := by
  refine ⟨by with_unfolding_all rfl, by norm_num⟩
